import Mathlib

/-!
Verification development for the Ghost word game
(`src/lib/game.py`, `src/lib/player.py`, `src/app.py`).

The embedding is shallow: the mutable `Game` object together with the
per-player attributes of the `Player` objects it owns is modelled by the
record `GameState`; every method of `Game` / `Player` that mutates state
becomes a function `GameState → ...`.  Players are identified by their
sequential integer id (the `Player.id` attribute), so the roster
`Game.players` is a `List Nat` and the per-player attributes
`current_strikes` / `is_eliminated` are total maps from ids.

Python exceptions are modelled by `Except PyError` (when the claim cares
which exception) or by `Option` (when it only matters that the call
raises).  Console I/O (`print` / `input`) carries no game state and is
dropped; the words a human types are passed as explicit arguments.

Python string methods are modelled on the character list `String.data`:
`pyStrip` (`str.strip`), `pyLower` (`str.lower`), `pyUpper` (`str.upper`),
`pyStartswith` (`str.startswith`).
-/

/-- Python exception classes raised by the source code. -/
inductive PyError where
  | valueError (msg : String)
  | nameError
  | notImplementedError
  deriving Repr, DecidableEq

/-- Model of Python `str.lower` (the word files are ASCII). -/
def pyLower (s : String) : String := ⟨s.data.map Char.toLower⟩

/-- Model of Python `str.upper`. -/
def pyUpper (s : String) : String := ⟨s.data.map Char.toUpper⟩

/-- Model of Python `str.strip`: drop whitespace from both ends. -/
def pyStrip (s : String) : String :=
  ⟨((s.data.dropWhile Char.isWhitespace).reverse.dropWhile
      Char.isWhitespace).reverse⟩

/-- Model of Python `s.startswith(pre)`. -/
def pyStartswith (s pre : String) : Bool := pre.data.isPrefixOf s.data

/-- Python `list(string.ascii_lowercase)`: the 26 one-character strings
used by `Player.play_letter` (player.py line 151). -/
def asciiLowercase : List String :=
  ["a", "b", "c", "d", "e", "f", "g", "h", "i", "j", "k", "l", "m",
   "n", "o", "p", "q", "r", "s", "t", "u", "v", "w", "x", "y", "z"]

/-- State of a `Game` object together with the state of the `Player`
objects that belong to it.  Field names follow the Python attributes;
`currentStrikes p` / `isEliminated p` are the attributes of the player
whose `Player.id` is `p`. -/
structure GameState where
  currentStrikes : Nat → Nat
  isEliminated : Nat → Bool
  players : List Nat
  playerCount : Nat
  currentPlayer : Option Nat
  minWordLength : Nat
  ghostWord : String
  numStrikesAllowed : Nat
  wordList : List String
  currentWordFragment : String
  gameIsOver : Bool

/-- One entry of the `player_configs` list handed to `Game.__init__`.
`app.py` always fills both keys, using `None` for a defaulted value. -/
structure PlayerConfig where
  playerType : Option String
  name : Option String

/-- Game.load_word_list (game.py lines 65-78): keep the lines whose
stripped length is at least `min_word_length`, stripped and lowercased.
The word file is passed as its list of lines (`readlines`). -/
def loadWordList (lines : List String) (minWordLength : Nat) : List String :=
  (lines.filter fun w => decide (minWordLength ≤ (pyStrip w).length)).map
    fun w => pyLower (pyStrip w)

/-- Game.is_valid_word (game.py lines 156-163): membership in the word
list. -/
def isValidWord (g : GameState) (word : String) : Bool :=
  g.wordList.contains word

/-- Game.is_valid_intended_word (game.py lines 138-154).  `none` models
Python `None`. -/
def isValidIntendedWord (g : GameState) (intendedWord : Option String) :
    Bool :=
  match intendedWord with
  | none => false
  | some w => pyStartswith w g.currentWordFragment && isValidWord g w

/-- Game.get_next_player (game.py lines 90-102).  `players.index` raises
`ValueError` when the current player is missing from the roster, and
`Game.__init__` leaves `current_player = None`; both failures are
`none`.  The wrap test compares against `player_count`, as the source
does. -/
def getNextPlayer (g : GameState) : Option Nat :=
  match g.currentPlayer with
  | none => none
  | some cp =>
    if cp ∈ g.players then
      let i := List.indexOf cp g.players
      let j := if i + 1 = g.playerCount then 0 else i + 1
      g.players[j]?
    else none

/-- Game.get_previous_player (game.py lines 104-116), as `getNextPlayer`.
(Python's negative indexing for `player_count = 0` is not modelled; under
`player_count = players.length` that branch needs an empty roster, where
the index lookup has already failed.) -/
def getPreviousPlayer (g : GameState) : Option Nat :=
  match g.currentPlayer with
  | none => none
  | some cp =>
    if cp ∈ g.players then
      let i := List.indexOf cp g.players
      let j := if i = 0 then g.playerCount - 1 else i - 1
      g.players[j]?
    else none

/-- Game.check_for_game_over (game.py lines 118-123).  Returns the new
state and the announced winner (`players[0]` when `player_count == 1`). -/
def checkForGameOver (g : GameState) : GameState × Option Nat :=
  if g.playerCount = 1 then
    ({ g with gameIsOver := true }, g.players[0]?)
  else (g, none)

/-- Game.eliminate_player (game.py lines 125-132): `players.remove`
drops the first occurrence and raises `ValueError` (here `none`) when the
player is absent; then `player_count = len(players)`. -/
def eliminatePlayer (g : GameState) (p : Nat) : Option GameState :=
  if p ∈ g.players then
    some { g with
      players := g.players.erase p
      playerCount := (g.players.erase p).length }
  else none

/-- Game.reset_current_word_fragment (game.py lines 134-136). -/
def resetCurrentWordFragment (g : GameState) : GameState :=
  { g with currentWordFragment := "" }

/-- Player.lose_round (player.py lines 124-142) for the player with id
`p`: reset the fragment, add a strike, and eliminate the player when the
strike count equals `num_strikes_allowed`. -/
def loseRound (g : GameState) (p : Nat) : Option GameState :=
  let g1 := resetCurrentWordFragment g
  let g2 := { g1 with
    currentStrikes := fun q =>
      if q = p then g1.currentStrikes p + 1 else g1.currentStrikes q }
  if g2.currentStrikes p = g2.numStrikesAllowed then
    eliminatePlayer g2 p
  else some g2

/-- Player.play_letter (player.py lines 144-159): raise `ValueError`
unless `letter` has length 1 and occurs in `list(string.ascii_lowercase)`;
otherwise append it to the shared fragment.  The exception is raised
before the fragment is touched. -/
def playLetter (g : GameState) (letter : String) :
    Except PyError GameState :=
  if letter.length ≠ 1 then
    .error (.valueError ("is not a letter"))
  else if ¬ (asciiLowercase.contains letter) then
    .error (.valueError ("Invalid letter"))
  else
    .ok { g with
      currentWordFragment := g.currentWordFragment ++ letter }

/-- Sequence of `play_letter` calls, threading the game state (the claim
about fragments built letter by letter). -/
def playLetters (g : GameState) : List String → Except PyError GameState
  | [] => .ok g
  | letter :: rest =>
    match playLetter g letter with
    | .error e => .error e
    | .ok g1 => playLetters g1 rest

/-- Player.challenge_previous_player_as_complete (player.py lines
161-191) called by the player with id `challenger`.  The previous player
is looked up first (line 163); printing the challenge message indexes
`current_word_fragment[-1]`, which raises `IndexError` on an empty
fragment (here `none`); then whoever the branch picks loses the round. -/
def challengePreviousPlayerAsComplete (g : GameState) (challenger : Nat) :
    Option GameState :=
  match getPreviousPlayer g with
  | none => none
  | some previousPlayer =>
    if g.currentWordFragment = "" then none
    else if isValidWord g g.currentWordFragment then
      loseRound g previousPlayer
    else
      loseRound g challenger

/-- Player.challenge_previous_player_as_impossible (player.py lines
193-229).  The word returned by the previous player's
`respond_to_challenge` is the argument `intendedWord` (user input for a
`HumanPlayer`). -/
def challengePreviousPlayerAsImpossible (g : GameState)
    (challenger : Nat) (intendedWord : Option String) : Option GameState :=
  match getPreviousPlayer g with
  | none => none
  | some previousPlayer =>
    if g.currentWordFragment = "" then none
    else if isValidIntendedWord g intendedWord then
      loseRound g challenger
    else
      loseRound g previousPlayer

/-- Player.forfeit_round (player.py lines 231-239). -/
def forfeitRound (g : GameState) (p : Nat) : Option GameState :=
  loseRound g p

/-- Loop body of Player.init_players_from_configs (player.py lines
61-88).  `acc` is the `players` list built so far, `last` the value of
the local variable `player` from the previous iteration (unbound at
first, hence `Option`), `count` the game's running `player_count`.
A `'human'` config builds a `HumanPlayer` (id = `player_count`, which is
then incremented); a `'computer'` config raises because
`ComputerPlayer.__init__` is `NotImplementedError` (player.py line 331);
any other type matches neither `if` branch, so `players.append(player)`
appends the *previous* player again, or raises `NameError` when no player
has been built yet. -/
def initPlayersLoop : List PlayerConfig → List Nat → Option Nat → Nat →
    Except PyError (List Nat × Nat)
  | [], acc, _, count => .ok (acc, count)
  | cfg :: rest, acc, last, count =>
    let playerType := cfg.playerType.getD ("human")
    if playerType = "human" then
      initPlayersLoop rest (acc ++ [count]) (some count) (count + 1)
    else if playerType = "computer" then
      .error .notImplementedError
    else
      match last with
      | none => .error .nameError
      | some p => initPlayersLoop rest (acc ++ [p]) (some p) count

/-- Player.init_players_from_configs: returns the roster of player ids
and the resulting `player_count` (which starts at 0 in `Game.__init__`). -/
def initPlayersFromConfigs (playerConfigs : List PlayerConfig) :
    Except PyError (List Nat × Nat) :=
  initPlayersLoop playerConfigs [] none 0

/-- Game.word_list_filepaths (game.py lines 22-25). -/
def wordListFilepaths : List (String × String) :=
  [("scrabble", "data/scrabble.txt"), ("webster", "data/webster.txt")]

/-- Game.__init__ (game.py lines 27-63).  `files` maps a word-file path
to its list of lines (the external word-list source).  The steps run in
source order: build the players, set the strike variables, check
`word_list_type` (raising `ValueError` *before* any word list is
loaded), load the word list, and clear the status fields. -/
def initGame (playerConfigs : List PlayerConfig) (minWordLength : Nat)
    (ghostWord : String) (wordListType : String)
    (files : String → List String) : Except PyError GameState :=
  match initPlayersFromConfigs playerConfigs with
  | .error e => .error e
  | .ok (ps, count) =>
    match wordListFilepaths.lookup wordListType with
    | none => .error (.valueError ("Invalid Game.word_list_type"))
    | some path =>
      .ok {
        currentStrikes := fun _ => 0
        isEliminated := fun _ => false
        players := ps
        playerCount := count
        currentPlayer := none
        minWordLength := minWordLength
        ghostWord := pyUpper ghostWord
        numStrikesAllowed := ghostWord.length
        wordList := loadWordList (files path) minWordLength
        currentWordFragment := ""
        gameIsOver := false }

/-- Moves available in a turn (HumanPlayer.take_turn, player.py lines
265-296): play a letter, challenge the previous player one of two ways,
or forfeit. -/
inductive TurnAction where
  | play (letter : String)
  | challengeComplete
  | challengeImpossible (intendedWord : Option String)
  | forfeit

/-- Effect of the current player's turn on the game state.  The
challenge actions invoke the `Player` challenge methods; `none` means the
turn did not complete (re-prompt or exception).  Note the dispatch line
`self.challenge_previous_player()` in HumanPlayer.take_turn (player.py
line 289) names a method that does not exist, so in the source a
challenge chosen at the prompt raises `AttributeError`; the model maps
the action to the underlying challenge methods, which only strengthens
the universally quantified theorems below. -/
def takeTurn (g : GameState) : TurnAction → Option GameState
  | .play letter => (playLetter g letter).toOption
  | .challengeComplete =>
    match g.currentPlayer with
    | none => none
    | some cp => challengePreviousPlayerAsComplete g cp
  | .challengeImpossible w =>
    match g.currentPlayer with
    | none => none
    | some cp => challengePreviousPlayerAsImpossible g cp w
  | .forfeit =>
    match g.currentPlayer with
    | none => none
    | some cp => loseRound g cp

/-- One iteration of the loop in Game.start (game.py lines 83-88), in
source order: compute the next player from the current roster, let the
current player take the turn, check for game over, then set
`current_player` to the precomputed next player. -/
def startStep (g : GameState) (a : TurnAction) : Option GameState :=
  match getNextPlayer g with
  | none => none
  | some nextPlayer =>
    match takeTurn g a with
    | none => none
    | some g1 =>
      some { (checkForGameOver g1).1 with currentPlayer := some nextPlayer }

/-- Lowercase ASCII letters, used to state which strings
`Player.play_letter` accepts. -/
def lowercaseChars : List Char :=
  ['a', 'b', 'c', 'd', 'e', 'f', 'g', 'h', 'i', 'j', 'k', 'l', 'm',
   'n', 'o', 'p', 'q', 'r', 's', 't', 'u', 'v', 'w', 'x', 'y', 'z']

/-- Claim-side description of a playable letter: exactly one lowercase
ASCII alphabetic character. -/
def IsLowercaseLetterString (s : String) : Prop :=
  ∃ c, s.data = [c] ∧ c ∈ lowercaseChars

/-- Spec wording for the cyclic predecessor of `x` in the roster `l`:
step back one position from `x`, wrapping from the first entry to the
last. -/
def specCyclicPredecessor (l : List Nat) (x : Nat) : Option Nat :=
  if x ∈ l then l[(List.indexOf x l + l.length - 1) % l.length]? else none

/-- Spec wording for the cyclic successor of `x` in the roster `l`. -/
def specCyclicSuccessor (l : List Nat) (x : Nat) : Option Nat :=
  if x ∈ l then l[(List.indexOf x l + 1) % l.length]? else none

/-- One state transition of the running game: any operation the source
can perform on the shared state during play.  Challenges and forfeits
are taken by a player on the roster (the acting player is the current
player, and the turn loop fails with `ValueError` before a player
removed from the roster can act). -/
inductive Step : GameState → GameState → Prop where
  | play {g g' : GameState} (letter : String) :
      playLetter g letter = .ok g' → Step g g'
  | challengeComplete {g g' : GameState} (actor : Nat) :
      actor ∈ g.players →
      challengePreviousPlayerAsComplete g actor = some g' → Step g g'
  | challengeImpossible {g g' : GameState} (actor : Nat) (w : Option String) :
      actor ∈ g.players →
      challengePreviousPlayerAsImpossible g actor w = some g' → Step g g'
  | forfeit {g g' : GameState} (actor : Nat) :
      actor ∈ g.players → loseRound g actor = some g' → Step g g'
  | checkOver {g : GameState} : Step g (checkForGameOver g).1
  | setCurrent {g : GameState} (p : Nat) :
      Step g { g with currentPlayer := some p }

/-- Reflexive-transitive closure of `Step`: the states a game can reach
from `g0`. -/
inductive Reachable (g0 : GameState) : GameState → Prop where
  | refl : Reachable g0 g0
  | tail {g g' : GameState} : Reachable g0 g → Step g g' → Reachable g0 g'

/-- Invariant maintained by every reachable state of a well-formed game. -/
def GameInv (g : GameState) : Prop :=
  g.players.Nodup ∧ g.playerCount = g.players.length ∧
  (∀ p ∈ g.players, g.currentStrikes p < g.numStrikesAllowed) ∧
  (∀ p, g.currentStrikes p ≤ g.numStrikesAllowed)

/-- Configs the documented external interface can produce (section 6 of
the spec / app.py validation): `player_type` is `'human'`, `'computer'`,
or defaulted. -/
def ValidConfigs (cfgs : List PlayerConfig) : Prop :=
  ∀ c ∈ cfgs, c.playerType = none ∨ c.playerType = some ("human") ∨
    c.playerType = some ("computer")

/-- Concrete mid-round game state used by the witnesses: two players,
player 1 to move, fragment `"ghost"`. -/
def sampleGame : GameState :=
  { currentStrikes := fun _ => 0
    isEliminated := fun _ => false
    players := [0, 1]
    playerCount := 2
    currentPlayer := some 1
    minWordLength := 4
    ghostWord := "GHOST"
    numStrikesAllowed := 5
    wordList := ["ghost", "house"]
    currentWordFragment := "ghost"
    gameIsOver := false }

/-- Concrete player configuration list (two default human players). -/
def sampleConfigs : List PlayerConfig :=
  [{ playerType := some ("human"), name := none },
   { playerType := none, name := none }]

/-- Concrete word-list source for the witnesses. -/
def sampleFiles : String → List String := fun _ => ["ghost", "house"]

/-- The game `initGame` builds from `sampleConfigs` and `sampleFiles`. -/
def sampleInit : GameState :=
  (initGame sampleConfigs 4 ("GHOST") ("scrabble") sampleFiles).toOption.getD
    sampleGame

/-- Result of one `startStep` from `sampleGame` when player 1 forfeits. -/
def sampleStepResult : GameState :=
  (startStep sampleGame .forfeit).getD sampleGame

lemma loseRound_of_hit (g : GameState) (p : Nat) (hmem : p ∈ g.players)
    (hc : g.currentStrikes p + 1 = g.numStrikesAllowed) :
    loseRound g p = some { g with
      currentWordFragment := ""
      currentStrikes := fun q =>
        if q = p then g.currentStrikes p + 1 else g.currentStrikes q
      players := g.players.erase p
      playerCount := (g.players.erase p).length } := by
  simp [loseRound, resetCurrentWordFragment, eliminatePlayer, hc, hmem]

lemma loseRound_of_miss (g : GameState) (p : Nat)
    (hc : g.currentStrikes p + 1 ≠ g.numStrikesAllowed) :
    loseRound g p = some { g with
      currentWordFragment := ""
      currentStrikes := fun q =>
        if q = p then g.currentStrikes p + 1 else g.currentStrikes q } := by
  simp [loseRound, resetCurrentWordFragment, hc]

/-- Claim C4: `lose_round` resets the shared fragment to the empty string,
adds exactly one strike to the losing player and to nobody else, and
removes the player from the roster exactly when the resulting strike count
equals `num_strikes_allowed`; every other player's roster membership is
unchanged. -/
theorem lose_round_spec (g : GameState) (p : Nat)
    (hmem : p ∈ g.players) (hnd : g.players.Nodup) :
    ∃ g', loseRound g p = some g' ∧
      g'.currentWordFragment = "" ∧
      g'.currentStrikes p = g.currentStrikes p + 1 ∧
      (∀ q, q ≠ p → g'.currentStrikes q = g.currentStrikes q) ∧
      (p ∉ g'.players ↔ g.currentStrikes p + 1 = g.numStrikesAllowed) ∧
      (∀ q, q ≠ p → (q ∈ g'.players ↔ q ∈ g.players)) := by
  by_cases hc : g.currentStrikes p + 1 = g.numStrikesAllowed
  · refine ⟨_, loseRound_of_hit g p hmem hc, rfl, by simp, ?_, ?_, ?_⟩
    · intro q hq; simp [hq]
    · simp [hc, hnd.not_mem_erase]
    · intro q hq
      simp [List.Nodup.mem_erase_iff hnd, hq]
  · refine ⟨_, loseRound_of_miss g p hc, rfl, by simp, ?_, ?_, ?_⟩
    · intro q hq; simp [hq]
    · simpa [hmem] using hc
    · intro q _; exact Iff.rfl

lemma getPreviousPlayer_eq (g : GameState) (cp : Nat)
    (hcp : g.currentPlayer = some cp) (hmem : cp ∈ g.players)
    (hpc : g.playerCount = g.players.length) :
    ∃ prev, getPreviousPlayer g = some prev ∧
      specCyclicPredecessor g.players cp = some prev ∧ prev ∈ g.players := by
  have hi : List.indexOf cp g.players < g.players.length :=
    List.indexOf_lt_length.2 hmem
  have hlen : 0 < g.players.length := Nat.lt_of_le_of_lt (Nat.zero_le _) hi
  have hj : (if List.indexOf cp g.players = 0 then g.playerCount - 1
      else List.indexOf cp g.players - 1) =
      (List.indexOf cp g.players + g.players.length - 1) % g.players.length := by
    by_cases h0 : List.indexOf cp g.players = 0
    · rw [if_pos h0, h0, hpc, Nat.zero_add, Nat.mod_eq_of_lt (by omega)]
    · rw [if_neg h0]
      have : List.indexOf cp g.players + g.players.length - 1 =
        (List.indexOf cp g.players - 1) + g.players.length := by omega
      rw [this, Nat.add_mod_right, Nat.mod_eq_of_lt (by omega)]
  have hjlt : (List.indexOf cp g.players + g.players.length - 1) %
      g.players.length < g.players.length := Nat.mod_lt _ hlen
  refine ⟨g.players[(List.indexOf cp g.players + g.players.length - 1) %
      g.players.length], ?_, ?_, List.getElem_mem _⟩
  · simp only [getPreviousPlayer, hcp, hmem, if_pos]
    rw [hj, List.getElem?_eq_getElem hjlt]
  · simp only [specCyclicPredecessor, hmem, if_pos]
    rw [List.getElem?_eq_getElem hjlt]

lemma getNextPlayer_eq (g : GameState) (cp : Nat)
    (hcp : g.currentPlayer = some cp) (hmem : cp ∈ g.players)
    (hpc : g.playerCount = g.players.length) :
    ∃ nxt, getNextPlayer g = some nxt ∧
      specCyclicSuccessor g.players cp = some nxt ∧ nxt ∈ g.players := by
  have hi : List.indexOf cp g.players < g.players.length :=
    List.indexOf_lt_length.2 hmem
  have hlen : 0 < g.players.length := Nat.lt_of_le_of_lt (Nat.zero_le _) hi
  have hj : (if List.indexOf cp g.players + 1 = g.playerCount then 0
      else List.indexOf cp g.players + 1) =
      (List.indexOf cp g.players + 1) % g.players.length := by
    by_cases h0 : List.indexOf cp g.players + 1 = g.playerCount
    · rw [if_pos h0]
      have h1 : List.indexOf cp g.players + 1 = g.players.length := by omega
      rw [h1, Nat.mod_self]
    · rw [if_neg h0, Nat.mod_eq_of_lt (by omega)]
  have hjlt : (List.indexOf cp g.players + 1) % g.players.length <
      g.players.length := Nat.mod_lt _ hlen
  refine ⟨g.players[(List.indexOf cp g.players + 1) % g.players.length],
    ?_, ?_, List.getElem_mem _⟩
  · simp only [getNextPlayer, hcp, hmem, if_pos]
    rw [hj, List.getElem?_eq_getElem hjlt]
  · simp only [specCyclicSuccessor, hmem, if_pos]
    rw [List.getElem?_eq_getElem hjlt]

lemma loseRound_chars (g : GameState) (p : Nat) (hmem : p ∈ g.players) :
    ∃ g', loseRound g p = some g' ∧ g'.currentWordFragment = "" ∧
      g'.currentStrikes p = g.currentStrikes p + 1 ∧
      (∀ q, q ≠ p → g'.currentStrikes q = g.currentStrikes q) := by
  by_cases hc : g.currentStrikes p + 1 = g.numStrikesAllowed
  · exact ⟨_, loseRound_of_hit g p hmem hc, rfl, by simp,
      fun q hq => by simp [hq]⟩
  · exact ⟨_, loseRound_of_miss g p hc, rfl, by simp,
      fun q hq => by simp [hq]⟩

/-- Claim C1: with a non-empty current word fragment, a challenge-as-complete
resolves against the previous player (the cyclic predecessor of the current
player in the roster) exactly when the fragment is a member of the game's
word list, and against the challenger otherwise; exactly one of the two
loses the round (strike +1, fragment reset), the other's strikes are
untouched. -/
theorem challenge_complete_resolves_round (g : GameState)
    (challenger cp : Nat)
    (hcp : g.currentPlayer = some cp) (hmem : cp ∈ g.players)
    (hpc : g.playerCount = g.players.length)
    (hfrag : g.currentWordFragment ≠ "")
    (hch : challenger ∈ g.players) :
    ∃ prev g', getPreviousPlayer g = some prev ∧
      specCyclicPredecessor g.players cp = some prev ∧
      challengePreviousPlayerAsComplete g challenger = some g' ∧
      g'.currentWordFragment = "" ∧
      (if g.currentWordFragment ∈ g.wordList then
        g'.currentStrikes prev = g.currentStrikes prev + 1 ∧
          (challenger ≠ prev →
            g'.currentStrikes challenger = g.currentStrikes challenger)
      else
        g'.currentStrikes challenger = g.currentStrikes challenger + 1 ∧
          (prev ≠ challenger →
            g'.currentStrikes prev = g.currentStrikes prev)) := by
  obtain ⟨prev, hprev, hspec, hprevmem⟩ := getPreviousPlayer_eq g cp hcp hmem hpc
  by_cases hword : g.currentWordFragment ∈ g.wordList
  · have hvw : isValidWord g g.currentWordFragment = true := by
      simpa [isValidWord] using hword
    obtain ⟨g', hlr, hf, hinc, hoth⟩ := loseRound_chars g prev hprevmem
    have hcc : challengePreviousPlayerAsComplete g challenger = some g' := by
      simp only [challengePreviousPlayerAsComplete, hprev, if_neg hfrag, hvw,
        if_pos]
      exact hlr
    refine ⟨prev, g', hprev, hspec, hcc, hf, ?_⟩
    rw [if_pos hword]
    exact ⟨hinc, fun hne => hoth challenger hne⟩
  · have hvw : isValidWord g g.currentWordFragment = false := by
      simpa [isValidWord] using hword
    obtain ⟨g', hlr, hf, hinc, hoth⟩ := loseRound_chars g challenger hch
    have hcc : challengePreviousPlayerAsComplete g challenger = some g' := by
      simp only [challengePreviousPlayerAsComplete, hprev, if_neg hfrag, hvw,
        Bool.false_eq_true, if_false]
      exact hlr
    refine ⟨prev, g', hprev, hspec, hcc, hf, ?_⟩
    rw [if_neg hword]
    exact ⟨hinc, fun hne => hoth prev hne⟩

lemma isValidIntendedWord_iff (g : GameState) (w : Option String) :
    isValidIntendedWord g w = true ↔
      ∃ s, w = some s ∧ g.currentWordFragment.data <+: s.data ∧
        s ∈ g.wordList := by
  cases w with
  | none => simp [isValidIntendedWord]
  | some s =>
    simp [isValidIntendedWord, pyStartswith, isValidWord,
      List.isPrefixOf_iff_prefix, and_comm]

/-- Claim C2: with a non-empty current word fragment, a
challenge-as-impossible obtains the previous player's intended word; the
challenger loses the round exactly when that word is a valid dictionary
word starting with the current fragment, and otherwise the previous player
loses it; exactly one of the two loses the round. -/
theorem challenge_impossible_resolves_round (g : GameState)
    (challenger cp : Nat) (intendedWord : Option String)
    (hcp : g.currentPlayer = some cp) (hmem : cp ∈ g.players)
    (hpc : g.playerCount = g.players.length)
    (hfrag : g.currentWordFragment ≠ "")
    (hch : challenger ∈ g.players) :
    ∃ prev g', getPreviousPlayer g = some prev ∧
      specCyclicPredecessor g.players cp = some prev ∧
      challengePreviousPlayerAsImpossible g challenger intendedWord = some g' ∧
      g'.currentWordFragment = "" ∧
      (if ∃ s, intendedWord = some s ∧ g.currentWordFragment.data <+: s.data ∧
          s ∈ g.wordList then
        g'.currentStrikes challenger = g.currentStrikes challenger + 1 ∧
          (prev ≠ challenger →
            g'.currentStrikes prev = g.currentStrikes prev)
      else
        g'.currentStrikes prev = g.currentStrikes prev + 1 ∧
          (challenger ≠ prev →
            g'.currentStrikes challenger = g.currentStrikes challenger)) := by
  obtain ⟨prev, hprev, hspec, hprevmem⟩ := getPreviousPlayer_eq g cp hcp hmem hpc
  by_cases hcond : ∃ s, intendedWord = some s ∧
      g.currentWordFragment.data <+: s.data ∧ s ∈ g.wordList
  · have hvw : isValidIntendedWord g intendedWord = true :=
      (isValidIntendedWord_iff g intendedWord).2 hcond
    obtain ⟨g', hlr, hf, hinc, hoth⟩ := loseRound_chars g challenger hch
    have hcc : challengePreviousPlayerAsImpossible g challenger intendedWord =
        some g' := by
      simp only [challengePreviousPlayerAsImpossible, hprev, if_neg hfrag, hvw,
        if_pos]
      exact hlr
    refine ⟨prev, g', hprev, hspec, hcc, hf, ?_⟩
    rw [if_pos hcond]
    exact ⟨hinc, fun hne => hoth prev hne⟩
  · have hvw : isValidIntendedWord g intendedWord = false := by
      have := (isValidIntendedWord_iff g intendedWord).not.2 hcond
      simpa using this
    obtain ⟨g', hlr, hf, hinc, hoth⟩ := loseRound_chars g prev hprevmem
    have hcc : challengePreviousPlayerAsImpossible g challenger intendedWord =
        some g' := by
      simp only [challengePreviousPlayerAsImpossible, hprev, if_neg hfrag, hvw,
        Bool.false_eq_true, if_false]
      exact hlr
    refine ⟨prev, g', hprev, hspec, hcc, hf, ?_⟩
    rw [if_neg hcond]
    exact ⟨hinc, fun hne => hoth challenger hne⟩

lemma join_cons (s : String) (l : List String) :
    String.join (s :: l) = s ++ String.join l := by
  apply String.ext
  simp [String.data_join, String.data_append]

lemma contains_asciiLowercase_iff (s : String) :
    asciiLowercase.contains s = true ↔ IsLowercaseLetterString s := by
  constructor
  · intro h
    have hmem : s ∈ asciiLowercase := by simpa using h
    fin_cases hmem <;> exact ⟨_, rfl, by decide⟩
  · rintro ⟨c, hd, hc⟩
    have hs : s = ⟨[c]⟩ := String.ext (by rw [hd])
    subst hs
    fin_cases hc <;> decide

lemma length_of_lowercase {s : String} (h : IsLowercaseLetterString s) :
    s.length = 1 := by
  obtain ⟨c, hd, _⟩ := h
  show s.data.length = 1
  rw [hd]
  rfl

lemma playLetter_ok_of_lowercase (g : GameState) {letter : String}
    (h : IsLowercaseLetterString letter) :
    playLetter g letter =
      .ok { g with currentWordFragment := g.currentWordFragment ++ letter } := by
  have h1 : letter.length = 1 := length_of_lowercase h
  have h2 : letter ∈ asciiLowercase := by
    simpa using (contains_asciiLowercase_iff letter).2 h
  simp [playLetter, h1, h2]

lemma playLetters_cons (g : GameState) (l : String) (rest : List String) :
    playLetters g (l :: rest) =
      match playLetter g l with
      | .error e => .error e
      | .ok g1 => playLetters g1 rest := rfl

lemma playLetters_all_lowercase (ls : List String) :
    ∀ g : GameState, (∀ l ∈ ls, IsLowercaseLetterString l) →
    playLetters g ls = .ok { g with
      currentWordFragment := g.currentWordFragment ++ String.join ls } := by
  induction ls with
  | nil =>
    intro g _
    simp [playLetters, String.join, String.append_empty]
  | cons l rest ih =>
    intro g h
    have hl := h l (by simp)
    have hrest : ∀ x ∈ rest, IsLowercaseLetterString x := by
      intro x hx; exact h x (by simp [hx])
    rw [playLetters_cons, playLetter_ok_of_lowercase g hl]
    simp only []
    rw [ih _ hrest]
    simp [join_cons, String.append_assoc]

/-- Claim C5: `play_letter` raises exactly when its argument is not a
single lowercase ASCII letter (leaving the fragment untouched, since no
successor state is produced); on success the new fragment is the old one
with the letter appended, so a sequence of valid letters played from an
empty fragment yields exactly their concatenation in play order. -/
theorem play_letter_spec (g : GameState) (letter : String) :
    ((∃ e, playLetter g letter = .error e) ↔ ¬ IsLowercaseLetterString letter) ∧
    (∀ g', playLetter g letter = .ok g' →
      g' = { g with currentWordFragment := g.currentWordFragment ++ letter }) ∧
    (∀ ls, (∀ l ∈ ls, IsLowercaseLetterString l) →
      playLetters { g with currentWordFragment := "" } ls =
        .ok { g with currentWordFragment := String.join ls }) := by
  refine ⟨⟨?_, ?_⟩, ?_, ?_⟩
  · rintro ⟨e, he⟩ hlow
    rw [playLetter_ok_of_lowercase g hlow] at he
    exact Except.noConfusion he
  · intro hlow
    by_cases h1 : letter.length = 1
    · have h2 : asciiLowercase.contains letter = false := by
        rw [Bool.eq_false_iff]
        intro hc
        exact hlow ((contains_asciiLowercase_iff letter).1 hc)
      have h2' : letter ∉ asciiLowercase := by simpa using h2
      exact ⟨.valueError ("Invalid letter"), by simp [playLetter, h1, h2']⟩
    · exact ⟨.valueError ("is not a letter"), by simp [playLetter, h1]⟩
  · intro g' h
    by_cases h1 : letter.length = 1
    · by_cases h2 : asciiLowercase.contains letter = true
      · rw [playLetter_ok_of_lowercase g
          ((contains_asciiLowercase_iff letter).1 h2)] at h
        injection h with h'
        exact h'.symm
      · have h2' : letter ∉ asciiLowercase := fun hc =>
          h2 (List.elem_eq_true_of_mem hc)
        simp [playLetter, h1, h2'] at h
    · simp [playLetter, h1] at h
  · intro ls hls
    rw [playLetters_all_lowercase ls { g with currentWordFragment := "" } hls]
    simp [String.empty_append]

lemma checkForGameOver_fst (g : GameState) :
    (checkForGameOver g).1 = { g with
      gameIsOver := g.gameIsOver || decide (g.playerCount = 1) } := by
  unfold checkForGameOver
  split
  · next h => simp [h]
  · next h => simp [h]

/-- Claim C9: one iteration of the `start` loop computes the next player
from the roster as it stands *before* the turn (cyclic wrap-around
successor of the current player), then runs the turn, then checks
game-over against the *post-turn* roster, and finally installs the
precomputed next player as current player, even if the turn changed the
roster. -/
theorem start_step_order (g : GameState) (cp : Nat) (a : TurnAction)
    (g' : GameState)
    (hcp : g.currentPlayer = some cp) (hmem : cp ∈ g.players)
    (hpc : g.playerCount = g.players.length)
    (hstep : startStep g a = some g') :
    (∃ nxt, getNextPlayer g = some nxt ∧
      specCyclicSuccessor g.players cp = some nxt ∧
      g'.currentPlayer = some nxt) ∧
    (∃ g1, takeTurn g a = some g1 ∧ g'.players = g1.players ∧
      g'.gameIsOver = (g1.gameIsOver || decide (g1.playerCount = 1))) := by
  obtain ⟨nxt, hnxt, hspec, _⟩ := getNextPlayer_eq g cp hcp hmem hpc
  simp only [startStep, hnxt] at hstep
  cases htt : takeTurn g a with
  | none => rw [htt] at hstep; exact Option.noConfusion hstep
  | some g1 =>
    rw [htt] at hstep
    injection hstep with h'
    subst h'
    refine ⟨⟨nxt, hnxt, hspec, rfl⟩, ⟨g1, rfl, ?_, ?_⟩⟩
    · rw [checkForGameOver_fst]
    · rw [checkForGameOver_fst]

lemma loseRound_cases {g : GameState} {p : Nat} {g' : GameState}
    (h : loseRound g p = some g') :
    (g.currentStrikes p + 1 = g.numStrikesAllowed ∧ p ∈ g.players ∧
      g' = { g with
        currentWordFragment := ""
        currentStrikes := fun q =>
          if q = p then g.currentStrikes p + 1 else g.currentStrikes q
        players := g.players.erase p
        playerCount := (g.players.erase p).length }) ∨
    (g.currentStrikes p + 1 ≠ g.numStrikesAllowed ∧
      g' = { g with
        currentWordFragment := ""
        currentStrikes := fun q =>
          if q = p then g.currentStrikes p + 1 else g.currentStrikes q }) := by
  by_cases hc : g.currentStrikes p + 1 = g.numStrikesAllowed
  · by_cases hm : p ∈ g.players
    · left
      refine ⟨hc, hm, ?_⟩
      rw [loseRound_of_hit g p hm hc] at h
      injection h with h'
      exact h'.symm
    · exfalso
      have hnone : loseRound g p = none := by
        simp [loseRound, resetCurrentWordFragment, eliminatePlayer, hc, hm]
      rw [hnone] at h
      exact Option.noConfusion h
  · right
    refine ⟨hc, ?_⟩
    rw [loseRound_of_miss g p hc] at h
    injection h with h'
    exact h'.symm

lemma playLetter_ok_cases {g : GameState} {letter : String} {g' : GameState}
    (h : playLetter g letter = .ok g') :
    g' = { g with currentWordFragment := g.currentWordFragment ++ letter } := by
  simp only [playLetter] at h
  split at h
  · exact Except.noConfusion h
  · split at h
    · exact Except.noConfusion h
    · injection h with h'
      exact h'.symm

lemma getPreviousPlayer_mem {g : GameState} {p : Nat}
    (h : getPreviousPlayer g = some p) : p ∈ g.players := by
  simp only [getPreviousPlayer] at h
  split at h
  · exact Option.noConfusion h
  · split at h
    · exact List.getElem?_mem h
    · exact Option.noConfusion h

lemma challengeComplete_cases {g : GameState} {a : Nat} {g' : GameState}
    (h : challengePreviousPlayerAsComplete g a = some g') :
    ∃ t, loseRound g t = some g' ∧ (t ∈ g.players ∨ t = a) := by
  simp only [challengePreviousPlayerAsComplete] at h
  split at h
  · exact Option.noConfusion h
  next prev hprev =>
    split at h
    · exact Option.noConfusion h
    · split at h
      · exact ⟨prev, h, Or.inl (getPreviousPlayer_mem hprev)⟩
      · exact ⟨a, h, Or.inr rfl⟩

lemma challengeImpossible_cases {g : GameState} {a : Nat} {w : Option String}
    {g' : GameState}
    (h : challengePreviousPlayerAsImpossible g a w = some g') :
    ∃ t, loseRound g t = some g' ∧ (t ∈ g.players ∨ t = a) := by
  simp only [challengePreviousPlayerAsImpossible] at h
  split at h
  · exact Option.noConfusion h
  next prev hprev =>
    split at h
    · exact Option.noConfusion h
    · split at h
      · exact ⟨a, h, Or.inr rfl⟩
      · exact ⟨prev, h, Or.inl (getPreviousPlayer_mem hprev)⟩

lemma loseRound_preserves_inv {g : GameState} {p : Nat} {g' : GameState}
    (hInv : GameInv g) (hmem : p ∈ g.players) (h : loseRound g p = some g') :
    GameInv g' := by
  obtain ⟨hnd, hpc, hlt, hle⟩ := hInv
  rcases loseRound_cases h with ⟨hc, _, rfl⟩ | ⟨hc, rfl⟩
  · refine ⟨hnd.erase p, rfl, ?_, ?_⟩
    · intro q hq
      rw [List.Nodup.mem_erase_iff hnd] at hq
      obtain ⟨hqp, hqmem⟩ := hq
      simpa [hqp] using hlt q hqmem
    · intro q
      by_cases hqp : q = p
      · subst hqp
        simp only [if_true, eq_self_iff_true]
        omega
      · simpa [hqp] using hle q
  · have hplt := hlt p hmem
    refine ⟨hnd, hpc, ?_, ?_⟩
    · intro q hq
      by_cases hqp : q = p
      · subst hqp
        simp only [if_true, eq_self_iff_true]
        omega
      · simpa [hqp] using hlt q hq
    · intro q
      by_cases hqp : q = p
      · subst hqp
        simp only [if_true, eq_self_iff_true]
        omega
      · simpa [hqp] using hle q

lemma loseRound_static {g : GameState} {p : Nat} {g' : GameState}
    (h : loseRound g p = some g') :
    g'.wordList = g.wordList ∧ g'.numStrikesAllowed = g.numStrikesAllowed ∧
    g'.isEliminated = g.isEliminated ∧ g'.ghostWord = g.ghostWord := by
  rcases loseRound_cases h with ⟨_, _, rfl⟩ | ⟨_, rfl⟩ <;>
    exact ⟨rfl, rfl, rfl, rfl⟩

lemma loseRound_players_sublist {g : GameState} {p : Nat} {g' : GameState}
    (h : loseRound g p = some g') : g'.players.Sublist g.players := by
  rcases loseRound_cases h with ⟨_, _, rfl⟩ | ⟨_, rfl⟩
  · exact List.erase_sublist p g.players
  · exact List.Sublist.refl _

lemma step_preserves_inv {g g' : GameState} (hInv : GameInv g)
    (hstep : Step g g') : GameInv g' := by
  cases hstep with
  | play letter h =>
    rw [playLetter_ok_cases h]
    exact hInv
  | challengeComplete a ha h =>
    obtain ⟨t, hlr, hmem⟩ := challengeComplete_cases h
    rcases hmem with hm | rfl
    · exact loseRound_preserves_inv hInv hm hlr
    · exact loseRound_preserves_inv hInv ha hlr
  | challengeImpossible a w ha h =>
    obtain ⟨t, hlr, hmem⟩ := challengeImpossible_cases h
    rcases hmem with hm | rfl
    · exact loseRound_preserves_inv hInv hm hlr
    · exact loseRound_preserves_inv hInv ha hlr
  | forfeit a ha h => exact loseRound_preserves_inv hInv ha h
  | checkOver =>
    rw [checkForGameOver_fst]
    exact hInv
  | setCurrent p => exact hInv

lemma step_static {g g' : GameState} (hstep : Step g g') :
    g'.wordList = g.wordList ∧ g'.numStrikesAllowed = g.numStrikesAllowed ∧
    g'.isEliminated = g.isEliminated ∧ g'.ghostWord = g.ghostWord := by
  cases hstep with
  | play letter h =>
    rw [playLetter_ok_cases h]
    exact ⟨rfl, rfl, rfl, rfl⟩
  | challengeComplete a ha h =>
    obtain ⟨t, hlr, _⟩ := challengeComplete_cases h
    exact loseRound_static hlr
  | challengeImpossible a w ha h =>
    obtain ⟨t, hlr, _⟩ := challengeImpossible_cases h
    exact loseRound_static hlr
  | forfeit a ha h => exact loseRound_static h
  | checkOver =>
    rw [checkForGameOver_fst]
    exact ⟨rfl, rfl, rfl, rfl⟩
  | setCurrent p => exact ⟨rfl, rfl, rfl, rfl⟩

lemma step_players_sublist {g g' : GameState} (hstep : Step g g') :
    g'.players.Sublist g.players := by
  cases hstep with
  | play letter h =>
    rw [playLetter_ok_cases h]
  | challengeComplete a ha h =>
    obtain ⟨t, hlr, _⟩ := challengeComplete_cases h
    exact loseRound_players_sublist hlr
  | challengeImpossible a w ha h =>
    obtain ⟨t, hlr, _⟩ := challengeImpossible_cases h
    exact loseRound_players_sublist hlr
  | forfeit a ha h => exact loseRound_players_sublist h
  | checkOver =>
    rw [checkForGameOver_fst]
  | setCurrent p => exact List.Sublist.refl _

lemma reachable_inv {g0 g : GameState} (h0 : GameInv g0)
    (h : Reachable g0 g) : GameInv g := by
  induction h with
  | refl => exact h0
  | tail _ hstep ih => exact step_preserves_inv ih hstep

lemma reachable_static {g0 g : GameState} (h : Reachable g0 g) :
    g.wordList = g0.wordList ∧ g.numStrikesAllowed = g0.numStrikesAllowed ∧
    g.isEliminated = g0.isEliminated ∧ g.ghostWord = g0.ghostWord := by
  induction h with
  | refl => exact ⟨rfl, rfl, rfl, rfl⟩
  | tail _ hstep ih =>
    obtain ⟨h1, h2, h3, h4⟩ := step_static hstep
    obtain ⟨i1, i2, i3, i4⟩ := ih
    exact ⟨h1.trans i1, h2.trans i2, h3.trans i3, h4.trans i4⟩

lemma initPlayersLoop_ok :
    ∀ (cfgs : List PlayerConfig) (acc : List Nat) (last : Option Nat)
      (count : Nat) (r : List Nat) (cnt : Nat),
    ValidConfigs cfgs → (∀ x ∈ acc, x < count) → acc.Nodup →
    initPlayersLoop cfgs acc last count = .ok (r, cnt) →
    r.Nodup ∧ (∀ x ∈ r, x < cnt) ∧ r.length + count = cnt + acc.length := by
  intro cfgs
  induction cfgs with
  | nil =>
    intro acc last count r cnt _ hb hnd h
    simp only [initPlayersLoop] at h
    injection h with h'
    injection h' with h1 h2
    subst h1; subst h2
    exact ⟨hnd, hb, by omega⟩
  | cons c rest ih =>
    intro acc last count r cnt hvalid hb hnd h
    have hrest : ValidConfigs rest := fun x hx => hvalid x (by simp [hx])
    have hcont : initPlayersLoop rest (acc ++ [count]) (some count)
        (count + 1) = .ok (r, cnt) →
        r.Nodup ∧ (∀ x ∈ r, x < cnt) ∧
          r.length + count = cnt + acc.length := by
      intro h'
      have hb' : ∀ x ∈ acc ++ [count], x < count + 1 := by
        intro x hx
        rcases List.mem_append.1 hx with hx | hx
        · exact Nat.lt_succ_of_lt (hb x hx)
        · simp at hx
          omega
      have hnd' : (acc ++ [count]).Nodup := by
        rw [List.nodup_append]
        refine ⟨hnd, List.nodup_singleton _, ?_⟩
        intro x hx
        simp only [List.mem_singleton]
        intro hxc
        subst hxc
        exact absurd (hb _ hx) (lt_irrefl _)
      obtain ⟨h1, h2, h3⟩ :=
        ih (acc ++ [count]) (some count) (count + 1) r cnt hrest hb' hnd' h'
      refine ⟨h1, h2, ?_⟩
      simp only [List.length_append, List.length_singleton] at h3
      omega
    rcases hvalid c (by simp) with hc | hc | hc
    · rw [show initPlayersLoop (c :: rest) acc last count =
          initPlayersLoop rest (acc ++ [count]) (some count) (count + 1) by
        simp [initPlayersLoop, hc]] at h
      exact hcont h
    · rw [show initPlayersLoop (c :: rest) acc last count =
          initPlayersLoop rest (acc ++ [count]) (some count) (count + 1) by
        simp [initPlayersLoop, hc]] at h
      exact hcont h
    · simp [initPlayersLoop, hc] at h

lemma initGame_ok_fields {cfgs : List PlayerConfig} {mwl : Nat} {gw : String}
    {wlt : String} {files : String → List String} {g0 : GameState}
    (h : initGame cfgs mwl gw wlt files = .ok g0) :
    g0.currentStrikes = (fun _ => 0) ∧ g0.isEliminated = (fun _ => false) ∧
    g0.currentWordFragment = "" ∧ g0.gameIsOver = false ∧
    g0.currentPlayer = none ∧ g0.ghostWord = pyUpper gw ∧
    g0.numStrikesAllowed = gw.length ∧ g0.minWordLength = mwl ∧
    (∃ path, wordListFilepaths.lookup wlt = some path ∧
      g0.wordList = loadWordList (files path) mwl) ∧
    ∃ cnt, initPlayersFromConfigs cfgs = .ok (g0.players, cnt) ∧
      g0.playerCount = cnt := by
  simp only [initGame] at h
  split at h
  · exact Except.noConfusion h
  next ps count hps =>
    split at h
    · exact Except.noConfusion h
    next path hpath =>
      injection h with h'
      subst h'
      refine ⟨rfl, rfl, rfl, rfl, rfl, rfl, rfl, rfl, ⟨path, hpath, rfl⟩,
        count, hps, rfl⟩

lemma initGame_ok_inv {cfgs : List PlayerConfig} {mwl : Nat} {gw : String}
    {wlt : String} {files : String → List String} {g0 : GameState}
    (hvalid : ValidConfigs cfgs) (hgw : 1 ≤ gw.length)
    (h : initGame cfgs mwl gw wlt files = .ok g0) : GameInv g0 := by
  obtain ⟨hstk, _, _, _, _, _, hallow, _, _, cnt, hps, hpc⟩ :=
    initGame_ok_fields h
  obtain ⟨hnd, _, hlen⟩ := initPlayersLoop_ok cfgs [] none 0 g0.players cnt
    hvalid (by simp) List.nodup_nil hps
  simp only [List.length_nil, Nat.add_zero] at hlen
  refine ⟨hnd, ?_, ?_, ?_⟩
  · rw [hpc]
    omega
  · intro p _
    have hz : g0.currentStrikes p = 0 := by rw [hstk]
    rw [hz, hallow]
    omega
  · intro p
    have hz : g0.currentStrikes p = 0 := by rw [hstk]
    rw [hz, hallow]
    omega

lemma length_pyLower (s : String) : (pyLower s).length = s.length := by
  show (s.data.map Char.toLower).length = s.data.length
  exact List.length_map _ _

lemma empty_not_mem_loadWordList (lines : List String) (minLen : Nat)
    (hm : 1 ≤ minLen) : ("" : String) ∉ loadWordList lines minLen := by
  intro h
  unfold loadWordList at h
  rw [List.mem_map] at h
  obtain ⟨w, hw, heq⟩ := h
  rw [List.mem_filter] at hw
  obtain ⟨_, hlen⟩ := hw
  have hlen1 : 1 ≤ (pyStrip w).length := le_trans hm (of_decide_eq_true hlen)
  have h0 : (pyLower (pyStrip w)).length = 0 := by rw [heq]; rfl
  rw [length_pyLower] at h0
  omega

lemma sampleInit_eq : initGame sampleConfigs 4 ("GHOST") ("scrabble")
    sampleFiles = .ok sampleInit := rfl

/-- Claim C3: in every game state the program reaches,
`is_valid_intended_word w` is true iff `w` is non-null, non-empty, starts
with the current fragment, and is a member of the word list; in particular
it is false for `None` and for the empty string. -/
theorem is_valid_intended_word_characterization
    (cfgs : List PlayerConfig) (files : String → List String)
    (g0 g : GameState) (w : Option String)
    (hinit : initGame cfgs 4 ("GHOST") ("scrabble") files = .ok g0)
    (hreach : Reachable g0 g) :
    isValidIntendedWord g w = true ↔
      ∃ s, w = some s ∧ s ≠ "" ∧ g.currentWordFragment.data <+: s.data ∧
        s ∈ g.wordList := by
  have hwl : g.wordList = g0.wordList := (reachable_static hreach).1
  obtain ⟨_, _, _, _, _, _, _, _, ⟨path, hpath, hwl0⟩, _⟩ :=
    initGame_ok_fields hinit
  have hpath' : path = "data/scrabble.txt" := by
    have : wordListFilepaths.lookup ("scrabble") =
        some ("data/scrabble.txt") := rfl
    rw [this] at hpath
    injection hpath with h'
    exact h'.symm
  have hempty : ("" : String) ∉ g.wordList := by
    rw [hwl, hwl0, hpath']
    exact empty_not_mem_loadWordList _ 4 (by omega)
  rw [isValidIntendedWord_iff]
  constructor
  · rintro ⟨s, rfl, hpre, hmem⟩
    exact ⟨s, rfl, fun hs => hempty (hs ▸ hmem), hpre, hmem⟩
  · rintro ⟨s, rfl, _, hpre, hmem⟩
    exact ⟨s, rfl, hpre, hmem⟩

/-- Witness for C3 at a freshly built game. -/
theorem is_valid_intended_word_characterization_witness :
    isValidIntendedWord sampleInit (some ("ghost")) = true ↔
      ∃ s, (some ("ghost") : Option String) = some s ∧ s ≠ "" ∧
        sampleInit.currentWordFragment.data <+: s.data ∧
        s ∈ sampleInit.wordList :=
  is_valid_intended_word_characterization sampleConfigs sampleFiles
    sampleInit sampleInit (some ("ghost")) sampleInit_eq Reachable.refl

/-- Claim C6: in every state reachable from a game the program builds
(well-formed configs, the default `'GHOST'` ghost word), strike counts
never exceed `num_strikes_allowed`, which is the ghost word's length; a
player whose count has reached the bound is no longer on the roster, and
no step ever re-adds a player (the roster only shrinks), so removal
happens exactly once, at the `lose_round` that reaches the bound. -/
theorem strikes_bounded_and_removal
    (cfgs : List PlayerConfig) (files : String → List String)
    (g0 g : GameState)
    (hvalid : ValidConfigs cfgs)
    (hinit : initGame cfgs 4 ("GHOST") ("scrabble") files = .ok g0)
    (hreach : Reachable g0 g) :
    (∀ p, g.currentStrikes p ≤ g.numStrikesAllowed) ∧
    g.numStrikesAllowed = g.ghostWord.length ∧
    (∀ p, g.currentStrikes p = g.numStrikesAllowed → p ∉ g.players) ∧
    (∀ g', Step g g' → g'.players.Sublist g.players) := by
  have hInv : GameInv g :=
    reachable_inv (initGame_ok_inv hvalid (by decide) hinit) hreach
  obtain ⟨_, _, hlt, hle⟩ := hInv
  obtain ⟨_, hallow, _, hghost⟩ := reachable_static hreach
  obtain ⟨_, _, _, _, _, hg0ghost, hg0allow, _, _, _⟩ :=
    initGame_ok_fields hinit
  refine ⟨hle, ?_, ?_, fun g' hs => step_players_sublist hs⟩
  · rw [hallow, hghost, hg0ghost, hg0allow]
    decide
  · intro p hp hmem
    exact absurd hp (Nat.ne_of_lt (hlt p hmem))

/-- Witness for C6 at a freshly built game. -/
theorem strikes_bounded_and_removal_witness :
    (∀ p, sampleInit.currentStrikes p ≤ sampleInit.numStrikesAllowed) ∧
    sampleInit.numStrikesAllowed = sampleInit.ghostWord.length ∧
    (∀ p, sampleInit.currentStrikes p = sampleInit.numStrikesAllowed →
      p ∉ sampleInit.players) ∧
    (∀ g', Step sampleInit g' → g'.players.Sublist sampleInit.players) :=
  strikes_bounded_and_removal sampleConfigs sampleFiles sampleInit sampleInit
    (by unfold ValidConfigs; decide) sampleInit_eq Reachable.refl

/-- Claim C7: in every reachable state of a game the program builds,
`check_for_game_over` sets `game_is_over` exactly when one player remains
(and then announces that sole player as the winner); with two or more
players left it changes nothing and announces nobody. -/
theorem check_for_game_over_iff_one_player
    (cfgs : List PlayerConfig) (files : String → List String)
    (g0 g : GameState)
    (hvalid : ValidConfigs cfgs)
    (hinit : initGame cfgs 4 ("GHOST") ("scrabble") files = .ok g0)
    (hreach : Reachable g0 g) :
    ((checkForGameOver g).1.gameIsOver =
      (g.gameIsOver || decide (g.players.length = 1))) ∧
    (∀ x, g.players = [x] → (checkForGameOver g).2 = some x ∧
      (checkForGameOver g).1.gameIsOver = true) ∧
    (2 ≤ g.players.length →
      (checkForGameOver g).1 = g ∧ (checkForGameOver g).2 = none) := by
  have hInv : GameInv g :=
    reachable_inv (initGame_ok_inv hvalid (by decide) hinit) hreach
  obtain ⟨_, hpc, _, _⟩ := hInv
  refine ⟨?_, ?_, ?_⟩
  · rw [checkForGameOver_fst, hpc]
  · intro x hx
    have h1 : g.playerCount = 1 := by rw [hpc, hx]; rfl
    constructor
    · simp [checkForGameOver, h1, hx]
    · rw [checkForGameOver_fst, h1]
      simp
  · intro h2
    have h1 : ¬ g.playerCount = 1 := by omega
    constructor
    · simp [checkForGameOver, h1]
    · simp [checkForGameOver, h1]

/-- Witness for C7 at a freshly built game. -/
theorem check_for_game_over_iff_one_player_witness :
    ((checkForGameOver sampleInit).1.gameIsOver =
      (sampleInit.gameIsOver || decide (sampleInit.players.length = 1))) ∧
    (∀ x, sampleInit.players = [x] →
      (checkForGameOver sampleInit).2 = some x ∧
      (checkForGameOver sampleInit).1.gameIsOver = true) ∧
    (2 ≤ sampleInit.players.length →
      (checkForGameOver sampleInit).1 = sampleInit ∧
      (checkForGameOver sampleInit).2 = none) :=
  check_for_game_over_iff_one_player sampleConfigs sampleFiles sampleInit
    sampleInit (by unfold ValidConfigs; decide) sampleInit_eq Reachable.refl

/-- Witness for C9: player 1 forfeits and the turn passes to player 0. -/
theorem start_step_order_witness :
    (∃ nxt, getNextPlayer sampleGame = some nxt ∧
      specCyclicSuccessor sampleGame.players 1 = some nxt ∧
      sampleStepResult.currentPlayer = some nxt) ∧
    (∃ g1, takeTurn sampleGame .forfeit = some g1 ∧
      sampleStepResult.players = g1.players ∧
      sampleStepResult.gameIsOver =
        (g1.gameIsOver || decide (g1.playerCount = 1))) :=
  start_step_order sampleGame 1 .forfeit sampleStepResult rfl (by decide)
    rfl rfl

/-- Claim C10: the `is_eliminated` flag of every player stays `False` in
every reachable state, including after eliminations; removal from the
roster is the only observable effect of `eliminate_player`. -/
theorem is_eliminated_flag_constant
    (cfgs : List PlayerConfig) (files : String → List String)
    (g0 g : GameState)
    (hinit : initGame cfgs 4 ("GHOST") ("scrabble") files = .ok g0)
    (hreach : Reachable g0 g) :
    ∀ p, g.isEliminated p = false := by
  intro p
  have helim : g.isEliminated = g0.isEliminated :=
    (reachable_static hreach).2.2.1
  obtain ⟨_, hflag, _⟩ := initGame_ok_fields hinit
  rw [helim, hflag]

/-- Witness for C10 at a freshly built game. -/
theorem is_eliminated_flag_constant_witness :
    sampleInit.isEliminated 3 = false :=
  is_eliminated_flag_constant sampleConfigs sampleFiles sampleInit sampleInit
    sampleInit_eq Reachable.refl 3

/-- Claim C8 (code bug): a `player_type` that is neither `'human'` nor
`'computer'` nor defaulted does not fail fast: the loop in
`Player.init_players_from_configs` matches neither branch and
`players.append(player)` re-appends the previously built player, so the
list `[human, alien]` yields the duplicated roster `[0, 0]` with
`player_count = 1` and no exception (an invalid *first* config instead
dies with `UnboundLocalError`, not the documented `ValueError`). -/
theorem init_players_invalid_type_no_failfast :
    initPlayersFromConfigs
      [{ playerType := some ("human"), name := none },
       { playerType := some ("alien"), name := none }] = .ok ([0, 0], 1) := rfl

/-- Witness for C1 at a concrete two-player state. -/
theorem challenge_complete_resolves_round_witness :
    ∃ prev g', getPreviousPlayer sampleGame = some prev ∧
      specCyclicPredecessor sampleGame.players 1 = some prev ∧
      challengePreviousPlayerAsComplete sampleGame 1 = some g' ∧
      g'.currentWordFragment = "" ∧
      (if sampleGame.currentWordFragment ∈ sampleGame.wordList then
        g'.currentStrikes prev = sampleGame.currentStrikes prev + 1 ∧
          (1 ≠ prev → g'.currentStrikes 1 = sampleGame.currentStrikes 1)
      else
        g'.currentStrikes 1 = sampleGame.currentStrikes 1 + 1 ∧
          (prev ≠ 1 → g'.currentStrikes prev = sampleGame.currentStrikes prev)) :=
  challenge_complete_resolves_round sampleGame 1 1 rfl (by decide) rfl
    (by decide) (by decide)

/-- Witness for C2 at a concrete two-player state. -/
theorem challenge_impossible_resolves_round_witness :
    ∃ prev g', getPreviousPlayer sampleGame = some prev ∧
      specCyclicPredecessor sampleGame.players 1 = some prev ∧
      challengePreviousPlayerAsImpossible sampleGame 1 (some ("ghostly")) =
        some g' ∧
      g'.currentWordFragment = "" ∧
      (if ∃ s, (some ("ghostly") : Option String) = some s ∧
          sampleGame.currentWordFragment.data <+: s.data ∧
          s ∈ sampleGame.wordList then
        g'.currentStrikes 1 = sampleGame.currentStrikes 1 + 1 ∧
          (prev ≠ 1 → g'.currentStrikes prev = sampleGame.currentStrikes prev)
      else
        g'.currentStrikes prev = sampleGame.currentStrikes prev + 1 ∧
          (1 ≠ prev → g'.currentStrikes 1 = sampleGame.currentStrikes 1)) :=
  challenge_impossible_resolves_round sampleGame 1 1 (some ("ghostly")) rfl
    (by decide) rfl (by decide) (by decide)

/-- Witness for C4 at a concrete two-player state. -/
theorem lose_round_spec_witness :
    ∃ g', loseRound sampleGame 0 = some g' ∧
      g'.currentWordFragment = "" ∧
      g'.currentStrikes 0 = sampleGame.currentStrikes 0 + 1 ∧
      (∀ q, q ≠ 0 → g'.currentStrikes q = sampleGame.currentStrikes q) ∧
      (0 ∉ g'.players ↔
        sampleGame.currentStrikes 0 + 1 = sampleGame.numStrikesAllowed) ∧
      (∀ q, q ≠ 0 → (q ∈ g'.players ↔ q ∈ sampleGame.players)) :=
  lose_round_spec sampleGame 0 (by decide) (by decide)

/-- Witness for C5: playing letters from an empty fragment. -/
theorem play_letter_spec_witness :
    playLetters { sampleGame with currentWordFragment := "" } ["g", "h"] =
      .ok { sampleGame with currentWordFragment := String.join ["g", "h"] } :=
  (play_letter_spec sampleGame ("q")).2.2 ["g", "h"] (by
    intro t ht
    fin_cases ht
    · exact ⟨'g', rfl, by decide⟩
    · exact ⟨'h', rfl, by decide⟩)
